import Mathlib

/-!
A verification development for the math_database repository: the entity
cache (`load_utils.TableEntriesCache` and the module-level lookup helpers),
the reference resolver (`render_utils.maybe_linked`), the relationship
graph builder (`data/make_graph.generate`), the schema-driven card renderer
(`render_utils.render_card`) and the delete handler of `server.py`.

Python values loaded from JSON are modelled by `PVal`.  At every call site
modelled here a missing dictionary key and an explicit JSON `null` both
behave as Python `None` (`dict.get` returns `None` for both), so both are
represented by `PVal.none`.  File-system state is modelled by a `disk`
field listing, per table directory, the file names together with their
parse results (`Option PVal`, `none` for a file `json.load` rejects);
`load_json_file` catches every exception and returns `None`, which is what
the `none` parse result stands for.
-/

/-- A Python value as it occurs in this program: `None`, booleans, integers,
strings, lists and string-keyed dictionaries (JSON object keys are strings). -/
inductive PVal where
  | none : PVal
  | bool (b : Bool) : PVal
  | int (n : Int) : PVal
  | str (s : String) : PVal
  | list (xs : List PVal) : PVal
  | dict (fields : List (String × PVal)) : PVal
  deriving Repr

mutual

/-- Structural boolean equality on `PVal` (used to derive `DecidableEq`). -/
def pvalBeq : PVal → PVal → Bool
  | .none, .none => true
  | .bool a, .bool b => a == b
  | .int m, .int n => m == n
  | .str a, .str b => a == b
  | .list xs, .list ys => pvalListBeq xs ys
  | .dict xs, .dict ys => pvalDictBeq xs ys
  | _, _ => false

def pvalListBeq : List PVal → List PVal → Bool
  | [], [] => true
  | a :: as, b :: bs => pvalBeq a b && pvalListBeq as bs
  | _, _ => false

def pvalDictBeq : List (String × PVal) → List (String × PVal) → Bool
  | [], [] => true
  | (k, v) :: as, (k', v') :: bs => k == k' && pvalBeq v v' && pvalDictBeq as bs
  | _, _ => false

end

mutual

theorem pvalBeq_iff : ∀ a b, pvalBeq a b = true ↔ a = b
  | .none, .none => by simp [pvalBeq]
  | .bool a, .bool b => by simp [pvalBeq]
  | .int m, .int n => by simp [pvalBeq]
  | .str a, .str b => by simp [pvalBeq]
  | .list xs, .list ys => by
      simp only [pvalBeq, pvalListBeq_iff xs ys]
      constructor
      · intro h; rw [h]
      · intro h; injection h
  | .dict xs, .dict ys => by
      simp only [pvalBeq, pvalDictBeq_iff xs ys]
      constructor
      · intro h; rw [h]
      · intro h; injection h
  | .none, .bool _ => by simp [pvalBeq]
  | .none, .int _ => by simp [pvalBeq]
  | .none, .str _ => by simp [pvalBeq]
  | .none, .list _ => by simp [pvalBeq]
  | .none, .dict _ => by simp [pvalBeq]
  | .bool _, .none => by simp [pvalBeq]
  | .bool _, .int _ => by simp [pvalBeq]
  | .bool _, .str _ => by simp [pvalBeq]
  | .bool _, .list _ => by simp [pvalBeq]
  | .bool _, .dict _ => by simp [pvalBeq]
  | .int _, .none => by simp [pvalBeq]
  | .int _, .bool _ => by simp [pvalBeq]
  | .int _, .str _ => by simp [pvalBeq]
  | .int _, .list _ => by simp [pvalBeq]
  | .int _, .dict _ => by simp [pvalBeq]
  | .str _, .none => by simp [pvalBeq]
  | .str _, .bool _ => by simp [pvalBeq]
  | .str _, .int _ => by simp [pvalBeq]
  | .str _, .list _ => by simp [pvalBeq]
  | .str _, .dict _ => by simp [pvalBeq]
  | .list _, .none => by simp [pvalBeq]
  | .list _, .bool _ => by simp [pvalBeq]
  | .list _, .int _ => by simp [pvalBeq]
  | .list _, .str _ => by simp [pvalBeq]
  | .list _, .dict _ => by simp [pvalBeq]
  | .dict _, .none => by simp [pvalBeq]
  | .dict _, .bool _ => by simp [pvalBeq]
  | .dict _, .int _ => by simp [pvalBeq]
  | .dict _, .str _ => by simp [pvalBeq]
  | .dict _, .list _ => by simp [pvalBeq]

theorem pvalListBeq_iff : ∀ xs ys, pvalListBeq xs ys = true ↔ xs = ys
  | [], [] => by simp [pvalListBeq]
  | a :: as, b :: bs => by
      simp [pvalListBeq, pvalBeq_iff a b, pvalListBeq_iff as bs]
  | [], _ :: _ => by simp [pvalListBeq]
  | _ :: _, [] => by simp [pvalListBeq]

theorem pvalDictBeq_iff : ∀ xs ys, pvalDictBeq xs ys = true ↔ xs = ys
  | [], [] => by simp [pvalDictBeq]
  | (k, v) :: as, (k', v') :: bs => by
      simp [pvalDictBeq, pvalBeq_iff v v', pvalDictBeq_iff as bs]
  | [], _ :: _ => by simp [pvalDictBeq]
  | _ :: _, [] => by simp [pvalDictBeq]

end

instance : DecidableEq PVal := fun a b =>
  decidable_of_iff (pvalBeq a b = true) (pvalBeq_iff a b)

/-- Python `==` on the values above.  `True == 1` and `False == 0` hold in
Python; all other comparisons between the constructors used by this program
coincide with structural equality.  (Python also applies the bool/int
coercion inside nested lists and dicts; the stores quantified over in the
theorems below carry integer ids and string short names, where the two
relations agree.) -/
def pyEq (a b : PVal) : Bool :=
  match a, b with
  | .bool x, .int n => (if x then (1 : Int) else 0) == n
  | .int n, .bool x => n == (if x then (1 : Int) else 0)
  | a, b => pvalBeq a b

/-- Python truthiness: `None`, `False`, `0`, `""`, `[]` and `{}` are falsy. -/
def truthy : PVal → Bool
  | .none => false
  | .bool b => b
  | .int n => n != 0
  | .str s => decide (s ≠ "")
  | .list xs => decide (xs ≠ [])
  | .dict fields => decide (fields ≠ [])

mutual

/-- Python `repr` of a value, as used by `str` on lists and dicts.  Escape
sequences inside string reprs are not reproduced; the program only
interpolates scalar values (integer ids, string names) into f-strings. -/
def pvalRepr : PVal → String
  | .none => "None"
  | .bool b => if b then "True" else "False"
  | .int n => toString n
  | .str s => "'" ++ s ++ "'"
  | .list xs => "[" ++ String.intercalate ", " (pvalReprList xs) ++ "]"
  | .dict fields => "\x7b" ++ String.intercalate ", " (pvalReprDict fields) ++ "\x7d"

def pvalReprList : List PVal → List String
  | [] => []
  | x :: xs => pvalRepr x :: pvalReprList xs

def pvalReprDict : List (String × PVal) → List String
  | [] => []
  | (k, v) :: xs => ("'" ++ k ++ "': " ++ pvalRepr v) :: pvalReprDict xs

end

/-- Python `str` of a value, as interpolated by an f-string. -/
def pvStr : PVal → String
  | .none => "None"
  | .bool b => if b then "True" else "False"
  | .int n => toString n
  | .str s => s
  | .list xs => pvalRepr (.list xs)
  | .dict fields => pvalRepr (.dict fields)

/-- `"k" in v` for a dict; the entries handled by the modelled claims are
dicts (Python's `in` on lists and strings is a membership/substring test
and raises on ints, none of which the claims' hypotheses admit). -/
def hasKey (v : PVal) (k : String) : Bool :=
  match v with
  | .dict fields => fields.any (fun p => p.1 == k)
  | _ => false

/-- `v.get(k)` for a dict `v` (default `None`); only applied to dicts. -/
def pvGet (v : PVal) (k : String) : PVal :=
  match v with
  | .dict fields => ((fields.find? (fun p => p.1 == k)).map (fun p => p.2)).getD .none
  | _ => .none

/-- `v.get(k, d)`: raises `AttributeError` when `v` is not a dict. -/
def pyGet (v : PVal) (k : String) (d : PVal) : Except String PVal :=
  match v with
  | .dict fields => .ok (((fields.find? (fun p => p.1 == k)).map (fun p => p.2)).getD d)
  | _ => .error "AttributeError: object has no attribute get"

/-- `v.get(key, d)` where the key itself is a Python value (render_card
looks entries up by the schema's `name` value).  Stored JSON keys are
strings, so a non-string key never matches and yields the default. -/
def pyGetK (v : PVal) (key : PVal) (d : PVal) : Except String PVal :=
  match v with
  | .dict fields =>
      .ok (((fields.find? (fun p => pyEq (.str p.1) key)).map (fun p => p.2)).getD d)
  | _ => .error "AttributeError: object has no attribute get"

/-- `v[k]` subscripting: `KeyError` on a dict without the key,
`TypeError` on a non-dict. -/
def pySubscript (v : PVal) (k : String) : Except String PVal :=
  match v with
  | .dict fields =>
      match fields.find? (fun p => p.1 == k) with
      | some p => .ok p.2
      | none => .error ("KeyError: " ++ k)
  | _ => .error "TypeError: value is not subscriptable by a string key"

/-- `for x in v`: lists yield their elements, strings their characters,
dicts their keys; other values raise `TypeError`. -/
def pyIterate (v : PVal) : Except String (List PVal) :=
  match v with
  | .list xs => .ok xs
  | .str s => .ok (s.data.map (fun c => .str (String.mk [c])))
  | .dict fields => .ok (fields.map (fun p => .str p.1))
  | _ => .error "TypeError: object is not iterable"

/-! ## Python string primitives

Python's `startswith`, `[1:]`, `'/' in s` / `split('/', 1)`, `isdigit` and
`int(...)` modelled on the character list underlying a `String`. -/

def pyStartsWith (s pre : String) : Bool := pre.data.isPrefixOf s.data

def pyEndsWith (s post : String) : Bool := post.data.isSuffixOf s.data

def pyDrop1 (s : String) : String := String.mk (s.data.drop 1)

/-- Split at the first occurrence of `c`; `none` when `c` does not occur
(Python guards `split` with `c in s`). -/
def splitOnceChar (c : Char) : List Char → Option (List Char × List Char)
  | [] => Option.none
  | x :: xs =>
      if x = c then some ([], xs)
      else (splitOnceChar c xs).map (fun p => (x :: p.1, p.2))

def pySplitOnce (s : String) (c : Char) : Option (String × String) :=
  (splitOnceChar c s.data).map (fun p => (String.mk p.1, String.mk p.2))

/-- Python `str.isdigit` restricted to ASCII digits (the ids in this
dataset are ASCII decimal). -/
def pyIsDigit (s : String) : Bool := decide (s.data ≠ []) && s.data.all Char.isDigit

/-- `int(s)` for a digit-only string. -/
def pyToInt (s : String) : Int :=
  Int.ofNat (s.data.foldl (fun acc c => 10 * acc + (c.toNat - 48)) 0)

/-! ## The entity store: `load_utils.TableEntriesCache` -/

abbrev Entry := PVal
abbrev Table := List Entry

/-- The `TableEntriesCache` object together with the on-disk data directory
it reads from.  `disk` maps a table name to the `(file name, parse result)`
list of its directory; a table directory missing from `disk` globs to no
files, matching `pathlib`'s behaviour on a missing directory. -/
structure TableEntriesCache where
  disk : List (String × List (String × Option PVal))
  cache : List (String × Table)
  deriving Repr

namespace TableEntriesCache

def diskFiles (s : TableEntriesCache) (t : String) : List (String × Option PVal) :=
  (((s.disk.find? (fun p => p.1 == t)).map (fun p => p.2))).getD []

/-- `_load_entries`: every `*.json` file except `schema.json` is parsed;
a file whose parse result is falsy (a failed parse gives `None`, and `{}`,
`[]`, `0`, `""`, `false`, `null` are equally falsy) is skipped. -/
def load_entries (files : List (String × Option PVal)) : Table :=
  files.filterMap (fun f =>
    if (!(pyEndsWith f.1 ".json")) || f.1 == "schema.json" then Option.none
    else match f.2 with
      | some v => if truthy v then some v else Option.none
      | Option.none => Option.none)

def findTable? (s : TableEntriesCache) (t : String) : Option Table :=
  (s.cache.find? (fun p => p.1 == t)).map (fun p => p.2)

/-- `get(table)`: return the cached list, loading it on first access. -/
def get (s : TableEntriesCache) (t : String) : Table × TableEntriesCache :=
  match s.findTable? t with
  | some l => (l, s)
  | Option.none =>
      let l := load_entries (s.diskFiles t)
      (l, { s with cache := s.cache ++ [(t, l)] })

/-- `self._cache[key] = value` for a key already present after `get`. -/
def setTable (s : TableEntriesCache) (t : String) (l : Table) : TableEntriesCache :=
  { s with cache := s.cache.map (fun p => if p.1 == t then (p.1, l) else p) }

/-- `remove(table, entry_id)`: keep the entries whose `id` and `short_name`
both differ from the key. -/
def remove (s : TableEntriesCache) (t : String) (k : PVal) : TableEntriesCache :=
  (s.get t).2.setTable t
    ((s.get t).1.filter (fun e => (!(pyEq (pvGet e "id") k)) && (!(pyEq (pvGet e "short_name") k))))

/-- The key `update` matches against: `entry.get('id') or entry.get('short_name')`. -/
def updKey (entry : Entry) : PVal :=
  if truthy (pvGet entry "id") then pvGet entry "id" else pvGet entry "short_name"

def matchesKey (e : Entry) (key : PVal) : Bool :=
  pyEq (pvGet e "id") key || pyEq (pvGet e "short_name") key

/-- The `update` loop: replace the first entry matching the key, append
when none matches. -/
def updateEntries (key : PVal) (entry : Entry) : Table → Table
  | [] => [entry]
  | e :: es => if matchesKey e key then entry :: es else e :: updateEntries key entry es

/-- `update(table, entry)`. -/
def update (s : TableEntriesCache) (t : String) (entry : Entry) : TableEntriesCache :=
  (s.get t).2.setTable t (updateEntries (updKey entry) entry (s.get t).1)

/-- One entry's test inside `lookup`'s loops: numeric id match (only when
the key is all digits) or short-name match; `entry.get` on a non-dict
entry raises `AttributeError`. -/
def refMatch (e : Entry) (idPart : String) : Except String Bool :=
  match e with
  | .dict _ =>
      .ok ((pyIsDigit idPart && pyEq (pvGet e "id") (.int (pyToInt idPart)))
        || pyEq (pvGet e "short_name") (.str idPart))
  | _ => .error "AttributeError: object has no attribute get"

def findEntry (tbl : String) (idPart : String) : Table → Except String (Option (String × Entry))
  | [] => .ok Option.none
  | e :: es => do
      if (← refMatch e idPart) then pure (some (tbl, e)) else findEntry tbl idPart es

def findBare (idPart : String) : List (String × Table) → Except String (Option (String × Entry))
  | [] => .ok Option.none
  | (tbl, entries) :: rest => do
      match (← findEntry tbl idPart entries) with
      | some r => pure (some r)
      | Option.none => findBare idPart rest

/-- `lookup(ref)`: `#table/key` looks inside one table (loading it on
demand), a bare `#key` scans the already-cached tables in insertion
order. -/
def lookup (s : TableEntriesCache) (ref : String) :
    Except String (Option (String × Entry) × TableEntriesCache) :=
  if ¬ pyStartsWith ref "#" then .ok (Option.none, s)
  else
    let rest := pyDrop1 ref
    match pySplitOnce rest '/' with
    | some (tbl, idPart) =>
        do pure ((← findEntry tbl idPart (s.get tbl).1), (s.get tbl).2)
    | Option.none => do pure ((← findBare rest s.cache), s)

end TableEntriesCache

def isDict : PVal → Bool
  | .dict _ => true
  | _ => false

def isIntV : PVal → Bool
  | .int _ => true
  | _ => false

def isStrV : PVal → Bool
  | .str _ => true
  | _ => false

/-- `v.get(k, d)` for a dict, total (only applied where the receiver is
known to be a dict). -/
def pvGetD (v : PVal) (k : String) (d : PVal) : PVal :=
  match v with
  | .dict fields => ((fields.find? (fun p => p.1 == k)).map (fun p => p.2)).getD d
  | _ => d

/-! ## Module-level lookup helpers of `load_utils`

`get_table_dict_by_short_name` / `get_table_dict_by_id` build a Python dict
keyed by the field value; a repeated key overwrites the stored value while
keeping the first key's position, exactly as a Python dict comprehension
does.  `d.get(k)` compares the query against stored keys with `==`. -/

def pyDictSet (d : List (PVal × PVal)) (k v : PVal) : List (PVal × PVal) :=
  if d.any (fun p => pyEq p.1 k) then d.map (fun p => if pyEq p.1 k then (p.1, v) else p)
  else d ++ [(k, v)]

def buildDictBy (field : String) (entries : Table) : List (PVal × PVal) :=
  entries.foldl (fun d e => if hasKey e field then pyDictSet d (pvGet e field) e else d) []

def pyDictGet (d : List (PVal × PVal)) (k : PVal) : Option PVal :=
  (d.find? (fun p => pyEq p.1 k)).map (fun p => p.2)

def get_table_dict_by_short_name (entries : Table) : List (PVal × PVal) :=
  buildDictBy "short_name" entries

def get_table_dict_by_id (entries : Table) : List (PVal × PVal) :=
  buildDictBy "id" entries

/-- `lookup_table_entry_by_short_name(table, short_name, data_dir)`;
the data directory is part of the store, whose cache the underlying
`get_table_entries` call may populate. -/
def lookup_table_entry_by_short_name (t : String) (short_name : String)
    (s : TableEntriesCache) : Option Entry × TableEntriesCache :=
  (pyDictGet (get_table_dict_by_short_name (s.get t).1) (.str short_name), (s.get t).2)

/-- `lookup_table_entry_by_id(table, id_value, data_dir)`. -/
def lookup_table_entry_by_id (t : String) (id_value : Int)
    (s : TableEntriesCache) : Option Entry × TableEntriesCache :=
  (pyDictGet (get_table_dict_by_id (s.get t).1) (.int id_value), (s.get t).2)

/-! ## The reference resolver: `render_utils.maybe_linked` -/

/-- The tables `get_table_infos` iterates over: the data-directory
subdirectories containing a `schema.json` file. -/
def tablesWithSchema (disk : List (String × List (String × Option PVal))) : List String :=
  (disk.filter (fun t => t.2.any (fun f => f.1 == "schema.json"))).map (fun t => t.1)

/-- The bare-reference loop of `maybe_linked`: scan the known tables for
the key as a short name, falling back to the `?`-marker. -/
def bareScan (key value : String) :
    List String → TableEntriesCache → PVal × TableEntriesCache
  | [], s => (.str ("?" ++ value), s)
  | t :: ts, s =>
      let (entry?, s') := lookup_table_entry_by_short_name t key s
      match entry? with
      | some entry =>
          if truthy entry then
            (.str ("<a href=\"../" ++ t ++ "/" ++ key ++ ".html\">"
              ++ pvStr (pvGetD entry "name" (.str key)) ++ "</a>"), s')
          else bareScan key value ts s'
      | Option.none => bareScan key value ts s'

/-- `maybe_linked(value, data_dir)`: a non-string or a string not starting
with `#` is returned as is; `#table/key` resolves the key as a short name
inside one table; a bare `#key` scans every table with a schema. -/
def maybe_linked (v : PVal) (s : TableEntriesCache) : PVal × TableEntriesCache :=
  match v with
  | .str value =>
      if ¬ pyStartsWith value "#" then (v, s)
      else
        let key := pyDrop1 value
        match pySplitOnce key '/' with
        | some (table, short_name) =>
            let r := lookup_table_entry_by_short_name table short_name s
            match r.1 with
            | some entry =>
                if truthy entry then
                  (.str ("<a href=\"../" ++ table ++ "/" ++ short_name ++ ".html\">"
                    ++ pvStr (pvGetD entry "name" (.str short_name)) ++ "</a>"), r.2)
                else (.str ("?" ++ value), r.2)
            | Option.none => (.str ("?" ++ value), r.2)
        | Option.none => bareScan key value (tablesWithSchema s.disk) s
  | _ => (v, s)

/-- Modelled from the spec: the HTML escaping the spec's sentence "returns
it unchanged (escaped)" claims for non-reference values (Python's
`html.escape` with `quote=True`); the source never calls it on this path,
which is what claim C9's counterexample exhibits. -/
def escapeChar (c : Char) : String :=
  if c = '&' then "&amp;"
  else if c = '<' then "&lt;"
  else if c = '>' then "&gt;"
  else if c = '"' then "&quot;"
  else if c = Char.ofNat 39 then "&#x27;"
  else String.mk [c]

def htmlEscape (s : String) : String :=
  String.mk (s.data.foldr (fun c acc => (escapeChar c).data ++ acc) [])

/-! ## The graph builder: `data/make_graph.generate` -/

structure GNode where
  id : String
  label : PVal
  ref : String
  ty : String
  shape : String
  color : String
  fillcolor : String
  deriving Repr

structure GEdge where
  source : String
  target : String
  ref : String
  label : String
  style : String
  color : String
  arrowhead : String
  deriving Repr, DecidableEq

/-- One mathematician node: `m["id"]` is subscripted (the default of the
`name` lookup), then the node is built. -/
def mathNode (m : Entry) : Except String GNode := do
  let i ← pySubscript m "id"
  let label ← pyGet m "name" i
  pure { id := "#mathematicians/" ++ pvStr i, label := label,
         ref := "#mathematicians/" ++ pvStr i, ty := "mathematician",
         shape := "ellipse", color := "#4F81BD", fillcolor := "#D9E1F2" }

def mathNodes : Table → Except String (List GNode)
  | [] => .ok []
  | m :: ms => do pure ((← mathNode m) :: (← mathNodes ms))

/-- The equations loop of `generate`: one node per equation, and an
`author` edge when `cache.lookup` resolves the equation's `author` field
(which must be a string for `startswith` not to raise). -/
def genEqs : TableEntriesCache → Table →
    Except String (List GNode × List GEdge × TableEntriesCache)
  | s, [] => .ok ([], [], s)
  | s, eq :: rest => do
      let latex ← pyGet eq "equation" (.str "")
      let i ← pySubscript eq "id"
      let name ← pyGet eq "name" i
      let node : GNode :=
        { id := "#equations/" ++ pvStr i,
          label := .str (pvStr name ++ "\n$" ++ pvStr latex ++ "$"),
          ref := "#equations/" ++ pvStr i, ty := "equation", shape := "box",
          color := "#C0504D", fillcolor := "#F2DCDB" }
      let author ← pyGet eq "author" (.list [])
      match author with
      | .str r => do
          let lr ← s.lookup r
          match lr.1 with
          | some (_, ae) => do
              let aid ← pySubscript ae "id"
              let edge : GEdge :=
                { source := node.id,
                  target := "#mathematicians/" ++ pvStr aid, ref := "",
                  label := "author", style := "dashed", color := "#C0504D",
                  arrowhead := "open" }
              let q ← genEqs lr.2 rest
              pure (node :: q.1, edge :: q.2.1, q.2.2)
          | Option.none => do
              let q ← genEqs lr.2 rest
              pure (node :: q.1, q.2.1, q.2.2)
      | _ => .error "AttributeError: object has no attribute startswith"

/-- `generate(cache)`: mathematician nodes, then equation nodes and author
edges; returns the node list, the edge list and the store (whose cache the
`get`/`lookup` calls may have populated). -/
def generate (s : TableEntriesCache) :
    Except String (List GNode × List GEdge × TableEntriesCache) := do
  let mns ← mathNodes (s.get "mathematicians").1
  let q ← genEqs (((s.get "mathematicians").2).get "equations").2
    (((s.get "mathematicians").2).get "equations").1
  pure (mns ++ q.1, q.2.1, q.2.2)

/-! ## The card renderer: `render_utils.render_card`

`markdown.markdown` is an external collaborator and is passed in as a
function `md`.  Store state is threaded through every `maybe_linked` and
`get_table_entries` call, and every Python exception the renderer can
raise is an explicit `Except.error`. -/

def render_string_field (label text : PVal) (table_name : String)
    (s : TableEntriesCache) : String × TableEntriesCache :=
  if ¬ truthy text then ("", s)
  else
    let head := if truthy label then "<p><strong>" ++ pvStr label ++ ": </strong>" else "<p>"
    let (lv, s') := maybe_linked text s
    (head ++ pvStr lv ++ "</p>", s')

def render_latex_field (label equation : PVal) : String :=
  if ¬ truthy equation then ""
  else
    (if truthy label then "<strong>" ++ pvStr label ++ ":</strong>" else "")
      ++ "\n    <div class=\"table-display\">\n        <div class=\"latex-equation\" data-latex=\""
      ++ pvStr equation ++ "\">\n            " ++ pvStr equation
      ++ "\n        </div>\n    </div>\n    "

/-- One step of the hashtag regex `#\w+(?:/\w+)?`: the word characters
after the sigil, the optional `/`-second word (taken only when at least
one word character follows the slash), and the remaining input. -/
def isWordChar (c : Char) : Bool := c.isAlphanum || c == '_'

def takeTag (l : List Char) : List Char × List Char :=
  let w1 := l.takeWhile isWordChar
  let rest1 := l.drop w1.length
  match rest1 with
  | '/' :: r2 =>
      let w2 := r2.takeWhile isWordChar
      if w2 = [] then (w1, rest1) else (w1 ++ '/' :: w2, r2.drop w2.length)
  | _ => (w1, rest1)

theorem takeTag_snd_length (l : List Char) : (takeTag l).2.length ≤ l.length := by
  have h1 : (l.drop (l.takeWhile isWordChar).length).length ≤ l.length := by
    rw [List.length_drop]; omega
  simp only [takeTag]
  split
  · next r2 heq =>
      have hr : r2.length + 1 ≤ l.length := by
        have h2 := h1
        rw [heq] at h2
        simpa using h2
      split
      · simp only [heq]
        simpa using hr
      · have h3 : (r2.drop (r2.takeWhile isWordChar).length).length ≤ r2.length := by
          rw [List.length_drop]; omega
        simp only
        omega
  · exact h1

/-- `re.sub(r'#\w+(?:/\w+)?', hashtag_replacer, text)`: scan left to
right, replace each non-overlapping match through `maybe_linked`. -/
def expandTags : TableEntriesCache → List Char → String × TableEntriesCache
  | s, [] => ("", s)
  | s, c :: rest =>
      if c = '#' ∧ rest.takeWhile isWordChar ≠ [] then
        let tg := takeTag rest
        let (rep, s') := maybe_linked (.str (String.mk ('#' :: tg.1))) s
        let (tl, s'') := expandTags s' tg.2
        (pvStr rep ++ tl, s'')
      else
        let (tl, s') := expandTags s rest
        (String.mk [c] ++ tl, s')
  termination_by _ l => l.length
  decreasing_by
  · simp only [List.length_cons]
    have := takeTag_snd_length rest
    omega
  · simp only [List.length_cons]; omega

def render_text_field (label text : PVal) (md : String → String)
    (s : TableEntriesCache) : Except String (String × TableEntriesCache) :=
  if ¬ truthy text then .ok ("", s)
  else
    match text with
    | .str t =>
        let (linked, s') := expandTags s t.data
        let html := md linked
        .ok ((if truthy label then "<strong>" ++ pvStr label ++ ":</strong>" else "")
          ++ "<div class=\"text-field\">" ++ html ++ "</div>", s')
    | _ => .error "TypeError: expected string or bytes-like object"

/-- `get_table_schema(table, data_dir)`: the parsed `schema.json` or `{}`
(a missing, malformed or falsy schema file all give `{}`). -/
def schemaOf (s : TableEntriesCache) (t : String) : PVal :=
  match (s.diskFiles t).find? (fun f => f.1 == "schema.json") with
  | some (_, some v) => if truthy v then v else .dict []
  | _ => .dict []

def optsBuild : List PVal → Except String (List (PVal × PVal))
  | [] => .ok []
  | opt :: rest => do
      let v ← pySubscript opt "value"
      let d ← pyGet opt "display_name" v
      pure ((v, d) :: (← optsBuild rest))

def enumScan : List PVal → PVal → Except String (List (PVal × PVal))
  | [], _ => .ok []
  | col :: rest, column => do
      let nm ← pySubscript col "name"
      let ty ← pyGet col "type" .none
      if pyEq nm column && pyEq ty (.str "enum") then do
        let enumV ← pyGet col "enum" (.list [])
        let opts ← pyIterate enumV
        optsBuild opts
      else enumScan rest column

/-- `get_enum_values(table, column, data_dir)`; the `lru_cache` decorator
hashes its arguments, so an unhashable column name raises `TypeError`. -/
def get_enum_values (s : TableEntriesCache) (table : String) (column : PVal) :
    Except String (List (PVal × PVal)) := do
  match column with
  | .list _ => .error "TypeError: unhashable type"
  | .dict _ => .error "TypeError: unhashable type"
  | _ =>
    let schema := schemaOf s table
    if ¬ truthy schema then pure []
    else do
      let colsV ← pyGet schema "columns" (.list [])
      let cols ← pyIterate colsV
      enumScan cols column

def enumDisp : List (PVal × PVal) → PVal → PVal
  | [], v => v
  | (val, disp) :: rest, v => if pyEq val v then disp else enumDisp rest v

def get_enum_display_name (s : TableEntriesCache) (table : String)
    (column value : PVal) : Except String PVal := do
  pure (enumDisp (← get_enum_values s table column) value)

/-- `render_utils.match(reference, entry, table)`: a digit key compares
against `id`, any other key against `short_name`; a table-qualified
reference must name the given table. -/
def refKeyTest (entry : Entry) (k : String) : Except String Bool :=
  match entry with
  | .dict _ =>
      if pyIsDigit k then .ok (pyEq (pvGet entry "id") (.int (pyToInt k)))
      else .ok (pyEq (pvGet entry "short_name") (.str k))
  | _ => .error "AttributeError: object has no attribute get"

def matchRefCol (reference : PVal) (entry : Entry) (table : String) :
    Except String Bool :=
  match reference with
  | .str r =>
      if ¬ pyStartsWith r "#" then .ok false
      else
        let key := pyDrop1 r
        match pySplitOnce key '/' with
        | some (table_ref, k) =>
            if table ≠ "" ∧ table ≠ table_ref then .ok false
            else refKeyTest entry k
        | Option.none => refKeyTest entry key
  | _ => .ok false

/-- The reverse-reference scan: all entries of the target table whose
named field matches the current entry. -/
def refScan (table_name : String) (entry : Entry) (col_rc : PVal) :
    List PVal → Except String (List PVal)
  | [] => .ok []
  | re :: rest => do
      let rv ← pyGetK re col_rc .none
      let m ← matchRefCol rv entry table_name
      let tl ← refScan table_name entry col_rc rest
      pure (if m then re :: tl else tl)

def refItemsHtml (rt : String) : List PVal → String
  | [] => ""
  | re :: rest =>
      let display := pvGetD re "name" (pvGetD re "short_name" (.str (pvStr (pvGetD re "id" (.str "")))))
      let link := "../" ++ rt ++ "/" ++ pvStr (pvGetD re "short_name" (pvGetD re "id" .none)) ++ ".html"
      "<li><a href='" ++ link ++ "'>" ++ pvStr display ++ "</a></li>" ++ refItemsHtml rt rest

def arrayItems : List PVal → TableEntriesCache → String × TableEntriesCache
  | [], s => ("", s)
  | item :: rest, s =>
      let (lv, s') := maybe_linked item s
      let (tl, s'') := arrayItems rest s'
      ("<li>" ++ pvStr lv ++ "</li>" ++ tl, s'')

/-- The outcome of one schema column inside `render_card`'s loop: the
column was skipped (`rendered: false`), assigned the `field` variable, or
— for an unknown type tag, which no `case` of the `match` statement
handles — left `field` at its previous value. -/
inductive ColResult where
  | skip
  | setF (f : String)
  | keep
  deriving Repr, DecidableEq

def renderColumn (md : String → String) (s : TableEntriesCache)
    (table_name : String) (col : PVal) (entry : Entry) :
    Except String (ColResult × TableEntriesCache) := do
  let col_name ← pyGet col "name" .none
  let col_label ← pyGet col "label" col_name
  let col_value ← pyGetK entry col_name (.str "")
  let rendered ← pyGet col "rendered" (.bool true)
  if ¬ truthy rendered then pure (.skip, s)
  else do
    let col_type ← pyGet col "type" (.str "string")
    if col_type = .str "string" then
      let (f, s') := render_string_field col_label col_value table_name s
      pure (.setF f, s')
    else if col_type = .str "integer" then
      pure (.setF ("<p><strong>" ++ pvStr col_label ++ ":</strong> "
        ++ (if col_value = .none then "" else pvStr col_value) ++ "</p>"), s)
    else if col_type = .str "boolean" then
      let display := if col_value = .bool true then "Yes"
        else if col_value = .bool false then "No" else "Unspecified"
      pure (.setF ("<p><strong>" ++ pvStr col_label ++ ":</strong> " ++ display ++ "</p>"), s)
    else if col_type = .str "text" then do
      let (f, s') ← render_text_field col_label col_value md s
      pure (.setF f, s')
    else if col_type = .str "latex" then
      pure (.setF (render_latex_field col_label col_value), s)
    else if col_type = .str "enum" then do
      let disp ← get_enum_display_name s table_name col_name col_value
      pure (.setF ("<p><strong>" ++ pvStr col_label ++ ":</strong> "
        ++ pvStr disp ++ "</p>"), s)
    else if col_type = .str "array" then
      match col_value with
      | .list items =>
          let (ih, s') := arrayItems items s
          pure (.setF ("<p><strong>" ++ pvStr col_label ++ ":</strong>"
            ++ "<ul class='fields-list'>" ++ ih ++ "</ul>" ++ "</p>"), s')
      | _ => pure (.setF ("<p><strong>" ++ pvStr col_label ++ ":</strong>"), s)
    else if col_type = .str "reference" then do
      let rtv ← pyGet col "table" .none
      let rcv ← pyGet col "column" .none
      if truthy rtv ∧ truthy rcv then
        match rtv with
        | .str rt => do
            let (res, s') := s.get rt
            let refs ← refScan table_name entry rcv res
            if refs ≠ [] then
              pure (.setF ("<p><strong>" ++ pvStr col_label ++ ":</strong>"
                ++ "<ul class='fields-list'>" ++ refItemsHtml rt refs ++ "</ul>" ++ "</p>"), s')
            else
              pure (.setF ("<p><strong>" ++ pvStr col_label ++ ":</strong> <em>None</em></p>"), s')
        | _ => .error "TypeError: argument should be a str or an os.PathLike object"
      else
        pure (.setF ("<p><strong>" ++ pvStr col_label
          ++ ":</strong> <em>Invalid reference config</em></p>"), s)
    else
      pure (.keep, s)

/-- The column loop of `render_card`: `card_content += field + '\n'`,
where an unknown type tag leaves `field` holding the previous column's
rendering, and raises `UnboundLocalError` when there is none. -/
def renderFields (md : String → String) (table_name : String) (entry : Entry) :
    TableEntriesCache → Option String → String → List PVal →
    Except String (String × TableEntriesCache)
  | s, _, acc, [] => .ok (acc, s)
  | s, lastField, acc, col :: rest => do
      match (← renderColumn md s table_name col entry) with
      | (.skip, s') => renderFields md table_name entry s' lastField acc rest
      | (.setF f, s') => renderFields md table_name entry s' (some f) (acc ++ f ++ "\n") rest
      | (.keep, s') =>
          match lastField with
          | Option.none => .error "UnboundLocalError: local variable field referenced before assignment"
          | some f => renderFields md table_name entry s' (some f) (acc ++ f ++ "\n") rest

/-- `render_card(table_name, schema, entry, data_dir, mode, make_title)`. -/
def render_card (md : String → String) (table_name : String) (schema : PVal)
    (entry : Entry) (s : TableEntriesCache) (mode : String)
    (make_title : Option (Entry → PVal)) :
    Except String (String × TableEntriesCache) :=
  if ¬ truthy schema ∨ ¬ truthy entry then
    .ok ("<div class='table-card'>No data available</div>", s)
  else do
    let title ← match make_title with
      | some f => pure (f entry)
      | Option.none => pyGet entry "name" (.str "No Name")
    let snv ← pyGet entry "short_name" .none
    let row_link : Option String :=
      if truthy snv then some (pvStr snv ++ ".html") else Option.none
    let icons_html ←
      if mode ≠ "static" then do
        let sn2 ← pyGet entry "short_name" .none
        let idv ← pyGet entry "id" .none
        let key := if truthy sn2 then sn2 else idv
        pure ("<span style=\"position:absolute; top:8px; right:8px; display:flex; gap:8px; z-index:2;\">\n            <a href=\"edit_"
          ++ pvStr key
          ++ ".html\" class=\"edit-entry-link\" title=\"Edit Entry\" style=\"font-size:1.2em; text-decoration:none;\">‚úé</a>\n            <span class=\"delete-entry-btn\" style=\"cursor:pointer; font-size:1.2em;\" title=\"Delete Entry\" onclick=\"deleteEntry("
          ++ pvStr idv
          ++ ")\">üóëÔ∏è</span>\n        </span>")
      else pure ""
    let title_html :=
      match row_link with
      | some rl => "<h3><a href=\"" ++ rl ++ "\" class=\"table-title-link\">" ++ pvStr title ++ "</a></h3>"
      | Option.none => "<h3>" ++ pvStr title ++ "</h3>"
    let colsV ← pyGet schema "columns" (.list [])
    let cols ← pyIterate colsV
    let (content, s') ← renderFields md table_name entry s Option.none "" cols
    let idv2 ← pySubscript entry "id"
    pure ("\n    <div class=\"table-card\" id=\"math-" ++ pvStr idv2
      ++ "\" style=\"position:relative;\">\n        " ++ icons_html
      ++ "\n        " ++ title_html
      ++ "\n        <div class=\"table-details\">\n        " ++ content
      ++ "\n        </div>\n    </div>\n    ", s')

/-! ## The delete handler of `server.py` -/

/-- The attributes the `TableEntriesCache` class body defines (methods)
together with the instance attributes set in `__init__`. -/
def tableEntriesCacheAttrs : List String :=
  ["__init__", "get", "_load_entries", "remove", "update", "lookup", "get_url",
   "_cache", "data_dir"]

inductive HttpResult where
  | response (status : Nat) (body : String)
  | pythonError (msg : String)
  deriving Repr, DecidableEq

/-- `delete_entry(table, entry_id)` of `server.py` for a numeric id (the
claim's scope; `int(entry_id)` has already succeeded).  The handler's
first step after obtaining the cache singleton is
`entry = cache.lookup_by_id(table, entry_id)`: the attribute lookup on the
cache object precedes every 404/success branch, so the model reaches the
rest of the handler only if the class had such an attribute. -/
def delete_entry (s : TableEntriesCache) (table : String) (entry_id : Int) : HttpResult :=
  if tableEntriesCacheAttrs.contains "lookup_by_id" then
    .response 500 "unreachable: TableEntriesCache defines no lookup_by_id"
  else
    .pythonError "AttributeError: TableEntriesCache object has no attribute lookup_by_id"

example : truthy (.dict []) = false := by decide
example : pyEq (.bool true) (.int 1) = true := by decide
example :
    (TableEntriesCache.load_entries
      [("schema.json", some (.dict [("title", .str "T")])),
       ("001_a.json", some (.dict [("id", .int 1)])),
       ("002_bad.json", Option.none),
       ("003_empty.json", some (.dict []))])
    = [.dict [("id", .int 1)]] := by rfl

/-! # Basic lemmas about Python equality -/

theorem pvalBeq_refl (a : PVal) : pvalBeq a a = true := (pvalBeq_iff a a).mpr rfl

theorem pyEq_refl (a : PVal) : pyEq a a = true := by
  cases a <;> exact pvalBeq_refl _

theorem pyEq_str_right_iff (a : PVal) (k : String) :
    pyEq a (.str k) = true ↔ a = .str k := by
  cases a <;> exact pvalBeq_iff _ _

theorem pyEq_str_right_false {a : PVal} {k : String} (h : a ≠ .str k) :
    pyEq a (.str k) = false :=
  Bool.eq_false_iff.mpr (fun hb => h ((pyEq_str_right_iff a k).mp hb))

theorem pyEq_int_int (m n : Int) : pyEq (.int m) (.int n) = true ↔ m = n := by
  have h := pvalBeq_iff (.int m) (.int n)
  simpa using h

/-! # Store plumbing lemmas -/

theorem assoc_find_map_set {l : Table} {t : String} :
    ∀ c : List (String × Table), (c.find? (fun q => q.1 == t)).isSome = true →
      (((c.map (fun q => if q.1 == t then (q.1, l) else q)).find?
        (fun q => q.1 == t)).map (fun q => q.2)) = some l
  | [], h => by simp at h
  | p :: rest, h => by
      by_cases hp : (p.1 == t) = true
      · rw [List.map_cons, if_pos hp]
        simp [List.find?_cons, hp]
      · rw [List.map_cons, if_neg hp]
        rw [List.find?_cons] at h
        simp only [hp, if_false, Bool.false_eq_true] at h
        simp only [List.find?_cons, hp, Bool.false_eq_true, if_false]
        exact assoc_find_map_set rest h

theorem findTable?_get_snd (s : TableEntriesCache) (t : String) :
    (s.get t).2.findTable? t = some (s.get t).1 := by
  unfold TableEntriesCache.get
  cases h : s.findTable? t with
  | some l => simp [h]
  | none =>
      simp only [h]
      unfold TableEntriesCache.findTable? at h ⊢
      have hf : s.cache.find? (fun q => q.1 == t) = Option.none := by
        cases hh : s.cache.find? (fun q => q.1 == t) with
        | none => rfl
        | some q => rw [hh] at h; simp at h
      simp [List.find?_append, hf]

theorem get_of_findTable? {s : TableEntriesCache} {t : String} {l : Table}
    (h : s.findTable? t = some l) : s.get t = (l, s) := by
  unfold TableEntriesCache.get; rw [h]

theorem setTable_get {s : TableEntriesCache} {t : String} (l : Table)
    (h : (s.findTable? t).isSome = true) :
    (s.setTable t l).get t = (l, s.setTable t l) := by
  apply get_of_findTable?
  unfold TableEntriesCache.setTable TableEntriesCache.findTable?
  unfold TableEntriesCache.findTable? at h
  have h2 : (s.cache.find? (fun q => q.1 == t)).isSome = true := by
    cases hh : s.cache.find? (fun q => q.1 == t) with
    | none => rw [hh] at h; simp at h
    | some q => rfl
  exact assoc_find_map_set s.cache h2

theorem remove_get (s : TableEntriesCache) (t : String) (k : PVal) :
    (s.remove t k).get t
      = ((s.get t).1.filter
          (fun e => (!(pyEq (pvGet e "id") k)) && (!(pyEq (pvGet e "short_name") k))),
         s.remove t k) := by
  unfold TableEntriesCache.remove
  exact setTable_get _ (by rw [findTable?_get_snd]; rfl)

theorem update_get (s : TableEntriesCache) (t : String) (e : Entry) :
    (s.update t e).get t
      = (TableEntriesCache.updateEntries (TableEntriesCache.updKey e) e (s.get t).1,
         s.update t e) := by
  unfold TableEntriesCache.update
  exact setTable_get _ (by rw [findTable?_get_snd]; rfl)

/-! # Claim C1 -/

/-- Claim C1 as stated is false on the code: with the spec's example
entities — the equation's `author` field holding the bare short name
`"euler"`, no `#` sigil — `TableEntriesCache.lookup` returns no match
(the reference grammar requires the sigil), so `generate` emits no edge
at all. -/
theorem c1_graph_example_counterexample :
    (generate (TableEntriesCache.mk []
      [("mathematicians",
        [.dict [("id", .int 1), ("short_name", .str "euler"),
                ("name", .str "Leonhard Euler")]]),
       ("equations",
        [.dict [("id", .int 10), ("short_name", .str "eulers-identity"),
                ("name", .str "Euler's Identity"),
                ("author", .str "euler")]])])).map (fun p => p.2.1)
      = .ok [] := rfl

/-- Claim C1 amended: with the author field written as the reference
string `"#mathematicians/euler"`, building the graph yields exactly one
edge, from node `#equations/10` to node `#mathematicians/1`, labeled
`author`. -/
theorem c1_graph_example_amended :
    (generate (TableEntriesCache.mk []
      [("mathematicians",
        [.dict [("id", .int 1), ("short_name", .str "euler"),
                ("name", .str "Leonhard Euler")]]),
       ("equations",
        [.dict [("id", .int 10), ("short_name", .str "eulers-identity"),
                ("name", .str "Euler's Identity"),
                ("author", .str "#mathematicians/euler")]])])).map (fun p => p.2.1)
      = .ok [{ source := "#equations/10", target := "#mathematicians/1",
               ref := "", label := "author", style := "dashed",
               color := "#C0504D", arrowhead := "open" }] := rfl

/-! # Claim C4 -/

/-- Claim C4 documents intended behaviour the code cannot reach: the
handler's first step is `cache.lookup_by_id(table, entry_id)`, but the
`TableEntriesCache` class defines no `lookup_by_id` attribute, so every
DELETE request — entity present or not — raises `AttributeError` (a 500
under Flask) instead of the documented 404 or `{success, deleted}`
responses. -/
theorem c4_delete_entry_attribute_error (s : TableEntriesCache)
    (table : String) (entry_id : Int) :
    delete_entry s table entry_id
      = .pythonError "AttributeError: TableEntriesCache object has no attribute lookup_by_id" := rfl

/-! # Claim C5 -/

/-- Claim C5 is what the unknown-type-tag handling should do, and the code
does something else: `render_card`'s `match` statement has no default
case, so an unknown tag leaves the loop variable `field` unassigned.
Here the first column has the unknown type `"mystery"` and the second the
known type `"integer"`: instead of failing only the unknown column and
still rendering the integer one, the whole card render raises
`UnboundLocalError` and no column renders. -/
theorem c5_render_card_unknown_type_bug :
    render_card id "things"
      (.dict [("title", .str "T"), ("columns", .list
        [.dict [("name", .str "b"), ("label", .str "B"), ("type", .str "mystery")],
         .dict [("name", .str "a"), ("label", .str "A"), ("type", .str "integer")]])])
      (.dict [("id", .int 1), ("name", .str "X"), ("a", .int 5), ("b", .int 7)])
      (TableEntriesCache.mk [] []) "static" Option.none
    = .error "UnboundLocalError: local variable field referenced before assignment" := rfl

/-! # Claim C7 -/

/-- Claim C7: after `remove(table, k)`, `get(table)` contains no entity
whose `id` equals `k` and none whose `short_name` equals `k` (Python
`==`), and every entity matching neither identity is still present with
unchanged multiplicity — exactly the matching entries are removed.  The
hypothesis restricts the cached entries to dicts, the only values
`entry.get` accepts. -/
theorem c7_remove_exact (s : TableEntriesCache) (t : String) (k : PVal)
    (hdict : ∀ e ∈ (s.get t).1, isDict e = true) :
    (∀ e ∈ ((s.remove t k).get t).1,
        pyEq (pvGet e "id") k = false ∧ pyEq (pvGet e "short_name") k = false)
    ∧ (∀ e : Entry, pyEq (pvGet e "id") k = false →
        pyEq (pvGet e "short_name") k = false →
        ((s.remove t k).get t).1.count e = (s.get t).1.count e) := by
  simp only [remove_get]
  constructor
  · intro e he
    have hm := (List.mem_filter.mp he).2
    simp only [Bool.and_eq_true, Bool.not_eq_true'] at hm
    exact hm
  · intro e h1 h2
    rw [List.count_filter]
    simp [h1, h2]

/-- Witness for C7 at a concrete two-entry table: removing key `"a"`
keeps the non-matching entry with its multiplicity. -/
theorem c7_remove_exact_witness :
    (((TableEntriesCache.mk [] [("things",
        [.dict [("id", .int 1), ("short_name", .str "a")],
         .dict [("id", .int 2), ("short_name", .str "b")]])]).remove "things"
      (.str "a")).get "things").1.count
      (.dict [("id", .int 2), ("short_name", .str "b")]) = 1 := by
  have h := (c7_remove_exact (TableEntriesCache.mk [] [("things",
      [.dict [("id", .int 1), ("short_name", .str "a")],
       .dict [("id", .int 2), ("short_name", .str "b")]])]) "things" (.str "a")
    (by decide)).2 (.dict [("id", .int 2), ("short_name", .str "b")])
    (by decide) (by decide)
  rw [h]
  decide

/-! # Claim C9 -/

/-- Claim C9 as stated is false on the code: a non-reference string is
returned with no HTML escaping at all — `"<b>"` comes back verbatim, not
as its escaped form. -/
theorem c9_nonreference_counterexample :
    (maybe_linked (.str "<b>") (TableEntriesCache.mk [] [])).1 = .str "<b>"
    ∧ PVal.str "<b>" ≠ .str (htmlEscape "<b>") := by
  constructor
  · rfl
  · decide

/-- Claim C9 amended: for every value that is not a reference string (not
a string, or a string not beginning with `#`), `maybe_linked` returns the
value — and the store — entirely unchanged, with no escaping applied. -/
theorem c9_nonreference_passthrough_amended (v : PVal) (s : TableEntriesCache)
    (h : ∀ t : String, v = .str t → pyStartsWith t "#" = false) :
    maybe_linked v s = (v, s) := by
  cases v with
  | str t => simp [maybe_linked, h t rfl]
  | none => rfl
  | bool b => rfl
  | int n => rfl
  | list xs => rfl
  | dict fs => rfl

/-- Witness for the amended C9 at the non-string value `5`. -/
theorem c9_nonreference_passthrough_amended_witness :
    maybe_linked (.int 5) (TableEntriesCache.mk [] [])
      = (.int 5, TableEntriesCache.mk [] []) :=
  c9_nonreference_passthrough_amended (.int 5) (TableEntriesCache.mk [] [])
    (fun _ h => nomatch h)

/-! # Claim C10 -/

/-- Claim C10: when a table is first loaded, an entity file whose content
parses to a falsy JSON value is skipped exactly like a malformed file (a
failed parse is the `Option.none` parse result): `get` returns the same
list as if the file were malformed, and the same list as if it were
absent, raising nothing. -/
theorem c10_falsy_entry_skipped (s : TableEntriesCache) (t n : String) (v : PVal)
    (files₁ files₂ : List (String × Option PVal))
    (hcold : s.findTable? t = Option.none)
    (hdisk : s.diskFiles t = files₁ ++ [(n, some v)] ++ files₂)
    (hfalsy : truthy v = false) :
    (s.get t).1 = TableEntriesCache.load_entries (files₁ ++ [(n, Option.none)] ++ files₂)
    ∧ (s.get t).1 = TableEntriesCache.load_entries (files₁ ++ files₂) := by
  have hmid1 : TableEntriesCache.load_entries [(n, some v)] = [] := by
    unfold TableEntriesCache.load_entries
    simp only [List.filterMap_cons, List.filterMap_nil, hfalsy]
    split
    · rfl
    · rename_i b heq
      split at heq <;> simp at heq
  have hmid2 : TableEntriesCache.load_entries [(n, Option.none)] = [] := by
    unfold TableEntriesCache.load_entries
    simp only [List.filterMap_cons, List.filterMap_nil]
    split
    · rfl
    · rename_i b heq
      split at heq <;> simp at heq
  have happ : ∀ a b : List (String × Option PVal),
      TableEntriesCache.load_entries (a ++ b)
        = TableEntriesCache.load_entries a ++ TableEntriesCache.load_entries b := by
    intro a b
    unfold TableEntriesCache.load_entries
    simp [List.filterMap_append]
  have hget : (s.get t).1 = TableEntriesCache.load_entries (s.diskFiles t) := by
    unfold TableEntriesCache.get
    simp only [hcold]
  constructor
  · rw [hget, hdisk, happ, happ, happ, happ, hmid1, hmid2]
  · rw [hget, hdisk, happ, happ, happ, hmid1]
    simp

/-- Witness for C10: a table whose directory holds a single file parsing
to `{}` loads as the empty list. -/
theorem c10_falsy_entry_skipped_witness :
    ((TableEntriesCache.mk [("t", [("a.json", some (.dict []))])] []).get "t").1 = [] := by
  have h := c10_falsy_entry_skipped
    (TableEntriesCache.mk [("t", [("a.json", some (.dict []))])] [])
    "t" "a.json" (.dict []) [] [] rfl rfl rfl
  simpa using h.2

/-! # Claim C2 -/

theorem matchesKey_self (e : Entry) :
    TableEntriesCache.matchesKey e (TableEntriesCache.updKey e) = true := by
  unfold TableEntriesCache.matchesKey TableEntriesCache.updKey
  by_cases h : truthy (pvGet e "id") = true
  · simp [h, pyEq_refl]
  · simp [h, pyEq_refl]

theorem updateEntries_filter (key : PVal) (entry : Entry)
    (hself : TableEntriesCache.matchesKey entry key = true) :
    ∀ es : Table, es.countP (fun e => TableEntriesCache.matchesKey e key) ≤ 1 →
      (TableEntriesCache.updateEntries key entry es).filter
        (fun e => TableEntriesCache.matchesKey e key) = [entry]
  | [], _ => by simp [TableEntriesCache.updateEntries, List.filter, hself]
  | e :: es, h => by
      unfold TableEntriesCache.updateEntries
      by_cases he : TableEntriesCache.matchesKey e key = true
      · rw [if_pos he]
        have h0 : es.countP (fun e => TableEntriesCache.matchesKey e key) = 0 := by
          rw [List.countP_cons] at h
          simp only [he, if_pos] at h
          omega
        have hnil : es.filter (fun e => TableEntriesCache.matchesKey e key) = [] := by
          rw [List.filter_eq_nil_iff]
          intro a ha
          have := List.countP_eq_zero.mp h0 a ha
          simpa using this
        simp [List.filter_cons, hself, hnil]
      · rw [if_neg he]
        have h' : es.countP (fun e => TableEntriesCache.matchesKey e key) ≤ 1 := by
          rw [List.countP_cons] at h
          omega
        simpa [List.filter_cons, he] using updateEntries_filter key entry hself es h'

/-- Claim C2 as stated is false on the code: `update` matches only the
single key `entry.get('id') or entry.get('short_name')` — not id OR
short_name of the new entity.  With the cache holding `{id: 2,
short_name: "a"}` (unique ids, unique short names) and the update entity
`{id: 1, short_name: "a"}`, the cached entity matches the new one by
short_name yet is not replaced: the entity is appended and `get` then
holds two entities carrying the entity's short_name `"a"`, not exactly
one. -/
theorem c2_update_counterexample :
    (((TableEntriesCache.mk [] [("things",
        [.dict [("id", .int 2), ("short_name", .str "a")]])]).update "things"
      (.dict [("id", .int 1), ("short_name", .str "a")])).get "things").1
      = [.dict [("id", .int 2), ("short_name", .str "a")],
         .dict [("id", .int 1), ("short_name", .str "a")]]
    ∧ (((TableEntriesCache.mk [] [("things",
        [.dict [("id", .int 2), ("short_name", .str "a")]])]).update "things"
      (.dict [("id", .int 1), ("short_name", .str "a")])).get "things").1.countP
        (fun e => pyEq (pvGet e "short_name") (.str "a")) = 2 := by
  constructor
  · rfl
  · rfl

/-- Claim C2 amended: `update(table, e)` computes the single key `e.get('id')
or e.get('short_name')`, replaces the first cached entity whose id or
short_name equals that key and appends `e` when none does; when the prior
cache held at most one entity matching that key, `get(table)` afterwards
contains exactly one entity matching it — namely `e` itself, carrying its
new field values. -/
theorem c2_update_upsert_amended (s : TableEntriesCache) (t : String) (entry : Entry)
    (h : (s.get t).1.countP
        (fun e => TableEntriesCache.matchesKey e (TableEntriesCache.updKey entry)) ≤ 1) :
    ((s.update t entry).get t).1.filter
        (fun e => TableEntriesCache.matchesKey e (TableEntriesCache.updKey entry)) = [entry] := by
  simp only [update_get]
  exact updateEntries_filter _ _ (matchesKey_self entry) _ h

/-- Witness for the amended C2: updating an existing entity leaves exactly
that entity, with the new field values, as the sole key match. -/
theorem c2_update_upsert_amended_witness :
    (((TableEntriesCache.mk [] [("things",
        [.dict [("id", .int 1), ("short_name", .str "a"), ("x", .int 0)]])]).update "things"
      (.dict [("id", .int 1), ("short_name", .str "a"), ("x", .int 9)])).get "things").1.filter
        (fun e => TableEntriesCache.matchesKey e
          (TableEntriesCache.updKey (.dict [("id", .int 1), ("short_name", .str "a"), ("x", .int 9)])))
      = [.dict [("id", .int 1), ("short_name", .str "a"), ("x", .int 9)]] := by
  exact c2_update_upsert_amended
    (TableEntriesCache.mk [] [("things",
      [.dict [("id", .int 1), ("short_name", .str "a"), ("x", .int 0)]])]) "things"
    (.dict [("id", .int 1), ("short_name", .str "a"), ("x", .int 9)]) (by decide)

/-! # Claim C3 -/

theorem str_data_append (a b : String) : (a ++ b).data = a.data ++ b.data := rfl

theorem splitOnceChar_append (c : Char) :
    ∀ (l₁ l₂ : List Char), c ∉ l₁ →
      splitOnceChar c (l₁ ++ c :: l₂) = some (l₁, l₂)
  | [], l₂, _ => by simp [splitOnceChar]
  | x :: xs, l₂, h => by
      have hx : ¬ x = c := by
        intro hh
        exact h (by rw [hh]; exact List.mem_cons_self c xs)
      simp only [List.cons_append, splitOnceChar, if_neg hx, List.append_eq]
      rw [splitOnceChar_append c xs l₂ (fun hin => h (List.mem_cons_of_mem _ hin))]
      rfl

theorem pyStartsWith_hash (r : String) : pyStartsWith ("#" ++ r) "#" = true := by
  unfold pyStartsWith
  rw [str_data_append]
  simp [List.isPrefixOf]

theorem pyDrop1_hash (r : String) : pyDrop1 ("#" ++ r) = r := by
  unfold pyDrop1
  rw [str_data_append]
  rfl

theorem pySplitOnce_slash (table key : String) (h : '/' ∉ table.data) :
    pySplitOnce (table ++ "/" ++ key) '/' = some (table, key) := by
  unfold pySplitOnce
  have hd : (table ++ "/" ++ key).data = table.data ++ '/' :: key.data := by
    rw [str_data_append, str_data_append]
    simp
  rw [hd, splitOnceChar_append '/' table.data key.data h]
  rfl

/-- Building the short-name dict and querying a key no entry carries
yields nothing; the accumulator invariant mirrors the fold. -/
theorem buildDict_get_none (field k : String) :
    ∀ (entries : Table) (d : List (PVal × PVal)),
      (∀ e ∈ entries, ¬(hasKey e field = true ∧ pvGet e field = .str k)) →
      (∀ p ∈ d, pyEq p.1 (.str k) = false) →
      pyDictGet (entries.foldl
        (fun d e => if hasKey e field then pyDictSet d (pvGet e field) e else d) d)
        (.str k) = Option.none
  | [], d, _, hd => by
      unfold pyDictGet
      rw [List.find?_eq_none.mpr (fun p hp => by simp [hd p hp])]
      rfl
  | e :: es, d, hno, hd => by
      simp only [List.foldl_cons]
      have hno' : ∀ x ∈ es, ¬(hasKey x field = true ∧ pvGet x field = .str k) :=
        fun x hx => hno x (List.mem_cons_of_mem _ hx)
      by_cases hk : hasKey e field = true
      · rw [if_pos hk]
        apply buildDict_get_none field k es _ hno'
        intro p hp
        have hkv : pyEq (pvGet e field) (.str k) = false := by
          apply pyEq_str_right_false
          intro hh
          exact hno e (List.mem_cons_self e es) ⟨hk, hh⟩
        unfold pyDictSet at hp
        split at hp
        · obtain ⟨q, hq, rfl⟩ := List.mem_map.mp hp
          by_cases hq1 : pyEq q.1 (pvGet e field) = true
          · simpa [hq1] using hd q hq
          · simpa [hq1] using hd q hq
        · rcases List.mem_append.mp hp with hpd | hps
          · exact hd p hpd
          · have : p = (pvGet e field, e) := by simpa using hps
            rw [this]
            exact hkv
      · rw [if_neg hk]
        exact buildDict_get_none field k es d hno' hd

/-- Claim C3: a `#table/key` reference whose key is the short name of no
entity in the table renders as the raw reference text behind a leading
`?` marker; the result is never empty, and every step of the resolver is
total (no exception can escape).  The hypotheses scope the statement to a
table without a slash in its name and to dict entries, the shapes the
resolver's dict comprehension accepts. -/
theorem c3_unresolved_reference_marker (s : TableEntriesCache) (table key : String)
    (hsl : '/' ∉ table.data)
    (hdict : ∀ e ∈ (s.get table).1, isDict e = true)
    (hnone : ∀ e ∈ (s.get table).1,
      ¬(hasKey e "short_name" = true ∧ pvGet e "short_name" = .str key)) :
    maybe_linked (.str ("#" ++ (table ++ "/" ++ key))) s
      = (.str ("?" ++ ("#" ++ (table ++ "/" ++ key))), (s.get table).2)
    ∧ ("?" ++ ("#" ++ (table ++ "/" ++ key))) ≠ "" := by
  have hlook : (lookup_table_entry_by_short_name table key s).1 = Option.none := by
    show pyDictGet (get_table_dict_by_short_name (s.get table).1) (.str key) = Option.none
    unfold get_table_dict_by_short_name buildDictBy
    exact buildDict_get_none "short_name" key (s.get table).1 [] hnone (by simp)
  constructor
  · simp only [maybe_linked, pyStartsWith_hash, pyDrop1_hash,
      pySplitOnce_slash table key hsl, hlook]
    simp [lookup_table_entry_by_short_name]
  · intro hh
    have := congrArg String.data hh
    rw [str_data_append] at this
    simp at this

/-- Witness for C3 at the spec's own example: `#equations/e1` with no
entity `e1` in table `equations`. -/
theorem c3_unresolved_reference_marker_witness :
    maybe_linked (.str "#equations/e1") (TableEntriesCache.mk [] [("equations", [])])
      = (.str "?#equations/e1", TableEntriesCache.mk [] [("equations", [])]) := by
  have h := (c3_unresolved_reference_marker (TableEntriesCache.mk [] [("equations", [])])
    "equations" "e1" (by decide) (by decide) (by decide)).1
  exact h

/-! # Claim C8 -/

theorem isIntV_elim {v : PVal} (h : isIntV v = true) : ∃ m : Int, v = .int m := by
  cases v with
  | int n => exact ⟨n, rfl⟩
  | none => simp [isIntV] at h
  | bool b => simp [isIntV] at h
  | str t => simp [isIntV] at h
  | list xs => simp [isIntV] at h
  | dict fs => simp [isIntV] at h

theorem pyEq_int_false_of_ne {m n : Int} (h : m ≠ n) :
    pyEq (.int m) (.int n) = false :=
  Bool.eq_false_iff.mpr (fun hb => h ((pyEq_int_int m n).mp hb))

theorem pyDictGet_append_single_cases {d : List (PVal × PVal)} {kv v k : PVal} {e : PVal}
    (h : pyDictGet (d ++ [(kv, v)]) k = some e) :
    e = v ∨ pyDictGet d k = some e := by
  unfold pyDictGet at h ⊢
  rw [List.find?_append] at h
  cases hd : d.find? (fun p => pyEq p.1 k) with
  | some q =>
      rw [hd] at h
      right
      simpa using h
  | none =>
      rw [hd] at h
      simp only [Option.none_or] at h
      left
      cases hkv : pyEq kv k with
      | true => simp [List.find?_cons, hkv] at h; exact h.symm
      | false => simp [List.find?_cons, hkv] at h

theorem pyDictGet_mapRepl_cases {kv v k : PVal} {e : PVal} :
    ∀ d : List (PVal × PVal),
      pyDictGet (d.map (fun p => if pyEq p.1 kv then (p.1, v) else p)) k = some e →
      e = v ∨ pyDictGet d k = some e
  | [], h => by simp [pyDictGet] at h
  | q :: d, h => by
      have hfst : (if pyEq q.1 kv = true then (q.1, v) else q).1 = q.1 := by
        split <;> rfl
      unfold pyDictGet at h ⊢
      rw [List.map_cons, List.find?_cons, hfst] at h
      rw [List.find?_cons]
      cases hq1 : pyEq q.1 k with
      | true =>
          simp only [hq1, if_pos] at h ⊢
          cases hq2 : pyEq q.1 kv with
          | true =>
              rw [if_pos (by rw [hq2])] at h
              simp only [Option.map_some'] at h
              exact Or.inl (Option.some.inj h).symm
          | false =>
              rw [if_neg (by rw [hq2]; simp)] at h
              right
              exact h
      | false =>
          simp only [hq1, Bool.false_eq_true, if_false] at h ⊢
          exact pyDictGet_mapRepl_cases d h

theorem pyDictSet_get_cases {d : List (PVal × PVal)} {kv v k : PVal} {e : PVal}
    (h : pyDictGet (pyDictSet d kv v) k = some e) :
    e = v ∨ pyDictGet d k = some e := by
  unfold pyDictSet at h
  split at h
  · exact pyDictGet_mapRepl_cases d h
  · exact pyDictGet_append_single_cases h

/-- Every value reachable from the built dict is one of the entries that
carries the field. -/
theorem buildDict_mem (field : String) (k : PVal) {e : PVal} :
    ∀ (entries : Table) (d : List (PVal × PVal)),
      pyDictGet (entries.foldl
        (fun d x => if hasKey x field then pyDictSet d (pvGet x field) x else d) d) k = some e →
      (e ∈ entries ∧ hasKey e field = true) ∨ pyDictGet d k = some e
  | [], d, h => by right; exact h
  | x :: es, d, h => by
      simp only [List.foldl_cons] at h
      by_cases hx : hasKey x field = true
      · rw [if_pos hx] at h
        rcases buildDict_mem field k es _ h with ⟨hmem, hkey⟩ | hset
        · exact Or.inl ⟨List.mem_cons_of_mem _ hmem, hkey⟩
        · rcases pyDictSet_get_cases hset with rfl | hold
          · exact Or.inl ⟨List.mem_cons_self _ _, hx⟩
          · exact Or.inr hold
      · rw [if_neg hx] at h
        rcases buildDict_mem field k es d h with ⟨hmem, hkey⟩ | hd
        · exact Or.inl ⟨List.mem_cons_of_mem _ hmem, hkey⟩
        · exact Or.inr hd

theorem pyDictSet_get_preserve {nk ni : Int} {v : PVal} :
    ∀ d : List (PVal × PVal), (∀ p ∈ d, isIntV p.1 = true) → nk ≠ ni →
      pyDictGet (pyDictSet d (.int nk) v) (.int ni) = pyDictGet d (.int ni)
  | d, hkeys, hne => by
      have hkv : pyEq (PVal.int nk) (.int ni) = false := pyEq_int_false_of_ne hne
      unfold pyDictSet
      split
      · -- replace-in-place: keys unchanged; a value replaced hangs on an
        -- nk-key, which by key typing cannot also be an ni-key
        clear * - hkeys hne
        induction d with
        | nil => rfl
        | cons q d ih =>
            obtain ⟨m, hm⟩ := isIntV_elim (hkeys q (List.mem_cons_self q d))
            have hfst : (if pyEq q.1 (.int nk) = true then (q.1, v) else q).1 = q.1 := by
              split <;> rfl
            unfold pyDictGet
            rw [List.map_cons, List.find?_cons, hfst, List.find?_cons]
            cases hqk : pyEq q.1 (.int ni) with
            | true =>
                have hmni : m = ni := (pyEq_int_int m ni).mp (by rw [← hm]; exact hqk)
                have hqkv : pyEq q.1 (.int nk) = false := by
                  rw [hm, hmni]
                  exact Bool.eq_false_iff.mpr
                    (fun hb => hne (((pyEq_int_int ni nk).mp hb).symm))
                rw [if_neg (by rw [hqkv]; simp)]
            | false =>
                simp only [hqk, Bool.false_eq_true, if_false]
                have hrest := ih (fun p hp => hkeys p (List.mem_cons_of_mem q hp))
                unfold pyDictGet at hrest
                exact hrest
      · unfold pyDictGet
        rw [List.find?_append]
        cases hd : d.find? (fun p => pyEq p.1 (.int ni)) with
        | some q => rfl
        | none => simp [List.find?_cons, hkv]

theorem pyDictSet_keys {d : List (PVal × PVal)} {kv v : PVal} :
    ∀ p ∈ pyDictSet d kv v, p.1 = kv ∨ ∃ q ∈ d, p.1 = q.1 := by
  intro p hp
  unfold pyDictSet at hp
  split at hp
  · obtain ⟨q, hq, rfl⟩ := List.mem_map.mp hp
    right
    refine ⟨q, hq, ?_⟩
    split <;> rfl
  · rcases List.mem_append.mp hp with hpd | hps
    · exact Or.inr ⟨p, hpd, rfl⟩
    · left
      have hpe : p = (kv, v) := by simpa using hps
      rw [hpe]

theorem buildDict_get_skip (field : String) (i : Int) :
    ∀ (es : Table) (d : List (PVal × PVal)),
      (∀ y ∈ es, hasKey y field = true → isIntV (pvGet y field) = true) →
      (∀ y ∈ es, hasKey y field = true → pyEq (pvGet y field) (.int i) = false) →
      (∀ p ∈ d, isIntV p.1 = true) →
      pyDictGet (es.foldl
        (fun d x => if hasKey x field then pyDictSet d (pvGet x field) x else d) d)
        (.int i) = pyDictGet d (.int i)
  | [], _, _, _, _ => rfl
  | y :: es, d, htyped, hne, hkeys => by
      simp only [List.foldl_cons]
      by_cases hy : hasKey y field = true
      · rw [if_pos hy]
        obtain ⟨ny, hny⟩ := isIntV_elim (htyped y (List.mem_cons_self y es) hy)
        have hnei : ny ≠ i := by
          intro hh
          have hfalse := hne y (List.mem_cons_self y es) hy
          rw [hny, hh] at hfalse
          rw [pyEq_refl] at hfalse
          exact Bool.true_eq_false.mp hfalse
        have hkeys' : ∀ p ∈ pyDictSet d (pvGet y field) y, isIntV p.1 = true := by
          intro p hp
          rcases pyDictSet_keys p hp with h1 | ⟨q, hq, h2⟩
          · rw [h1, hny]; rfl
          · rw [h2]; exact hkeys q hq
        rw [buildDict_get_skip field i es _
          (fun z hz => htyped z (List.mem_cons_of_mem _ hz))
          (fun z hz => hne z (List.mem_cons_of_mem _ hz)) hkeys']
        rw [hny]
        exact pyDictSet_get_preserve d hkeys hnei
      · rw [if_neg hy]
        exact buildDict_get_skip field i es d
          (fun z hz => htyped z (List.mem_cons_of_mem _ hz))
          (fun z hz => hne z (List.mem_cons_of_mem _ hz)) hkeys

theorem buildDict_get_of_mem (field : String) (i : Int) {e : Entry} :
    ∀ (entries : Table) (d : List (PVal × PVal)),
      (∀ x ∈ entries, hasKey x field = true → isIntV (pvGet x field) = true) →
      ((entries.filter (fun x => hasKey x field)).map (fun x => pvGet x field)).Nodup →
      e ∈ entries → hasKey e field = true → pvGet e field = .int i →
      (∀ p ∈ d, isIntV p.1 = true ∧ pyEq p.1 (.int i) = false) →
      pyDictGet (entries.foldl
        (fun d x => if hasKey x field then pyDictSet d (pvGet x field) x else d) d)
        (.int i) = some e
  | [], _, _, _, hmem, _, _, _ => absurd hmem (List.not_mem_nil e)
  | x :: es, d, htyped, hnodup, hmem, hkey, hval, hd => by
      simp only [List.foldl_cons]
      by_cases hex : e = x
      · subst hex
        rw [if_pos hkey, hval]
        have hset : pyDictGet (pyDictSet d (.int i) e) (.int i) = some e := by
          have hany : (d.any (fun p => pyEq p.1 (.int i))) = false := by
            rw [List.any_eq_false]
            intro p hp
            simp [(hd p hp).2]
          unfold pyDictSet
          rw [if_neg (by rw [hany]; simp)]
          unfold pyDictGet
          rw [List.find?_append,
            List.find?_eq_none.mpr (fun p hp => by simp [(hd p hp).2])]
          simp [List.find?_cons, pyEq_refl]
        have hfx : (e :: es).filter (fun y => hasKey y field) = e :: es.filter (fun y => hasKey y field) := by
          simp [List.filter_cons, hkey]
        rw [hfx, List.map_cons, List.nodup_cons] at hnodup
        have hnotin := hnodup.1
        rw [hval] at hnotin
        have hne_es : ∀ y ∈ es, hasKey y field = true → pyEq (pvGet y field) (.int i) = false := by
          intro y hy hky
          obtain ⟨ny, hny⟩ := isIntV_elim (htyped y (List.mem_cons_of_mem _ hy) hky)
          rw [hny]
          apply pyEq_int_false_of_ne
          intro hh
          apply hnotin
          apply List.mem_map.mpr
          exact ⟨y, List.mem_filter.mpr ⟨hy, hky⟩, by rw [hny, hh]⟩
        have hkeys' : ∀ p ∈ pyDictSet d (.int i) e, isIntV p.1 = true := by
          intro p hp
          rcases pyDictSet_keys p hp with h1 | ⟨q, hq, h2⟩
          · rw [h1]; rfl
          · rw [h2]; exact (hd q hq).1
        rw [buildDict_get_skip field i es _
          (fun z hz => htyped z (List.mem_cons_of_mem _ hz)) hne_es hkeys']
        exact hset
      · have hmem' : e ∈ es := (List.mem_cons.mp hmem).resolve_left hex
        by_cases hx : hasKey x field = true
        · rw [if_pos hx]
          obtain ⟨nx, hnx⟩ := isIntV_elim (htyped x (List.mem_cons_self x es) hx)
          have hfx : (x :: es).filter (fun y => hasKey y field)
              = x :: es.filter (fun y => hasKey y field) := by
            simp [List.filter_cons, hx]
          rw [hfx, List.map_cons, List.nodup_cons] at hnodup
          have htail_mem : PVal.int i ∈
              ((es.filter (fun y => hasKey y field)).map (fun y => pvGet y field)) :=
            List.mem_map.mpr ⟨e, List.mem_filter.mpr ⟨hmem', hkey⟩, hval⟩
          have hnxi : nx ≠ i := by
            intro hh
            apply hnodup.1
            rw [hnx, hh]
            exact htail_mem
          have hd' : ∀ p ∈ pyDictSet d (pvGet x field) x,
              isIntV p.1 = true ∧ pyEq p.1 (.int i) = false := by
            intro p hp
            rcases pyDictSet_keys p hp with h1 | ⟨q, hq, h2⟩
            · rw [h1, hnx]; exact ⟨rfl, pyEq_int_false_of_ne hnxi⟩
            · rw [h2]; exact hd q hq
          exact buildDict_get_of_mem field i es _
            (fun z hz => htyped z (List.mem_cons_of_mem _ hz)) hnodup.2 hmem' hkey hval hd'
        · rw [if_neg hx]
          have hfx : (x :: es).filter (fun y => hasKey y field)
              = es.filter (fun y => hasKey y field) := by
            simp [List.filter_cons, hx]
          rw [hfx] at hnodup
          exact buildDict_get_of_mem field i es d
            (fun z hz => htyped z (List.mem_cons_of_mem _ hz)) hnodup hmem' hkey hval hd

/-- Claim C8: for every entity of a table that carries a `short_name`,
`lookup_by_short_name` followed by `lookup_by_id` — using the id of the
entity returned by the first lookup — yields the same entity.  The
hypotheses encode the data model (§3): entries are dicts, short names are
strings, ids are integers and unique. -/
theorem c8_lookup_roundtrip (s : TableEntriesCache) (t sn : String) (e : Entry) (i : Int)
    (hdict : ∀ x ∈ (s.get t).1, isDict x = true)
    (hsn : ∀ x ∈ (s.get t).1, hasKey x "short_name" = true →
      isStrV (pvGet x "short_name") = true)
    (hid : ∀ x ∈ (s.get t).1, hasKey x "id" = true → isIntV (pvGet x "id") = true)
    (hnodup : (((s.get t).1.filter (fun x => hasKey x "id")).map
      (fun x => pvGet x "id")).Nodup)
    (hfound : (lookup_table_entry_by_short_name t sn s).1 = some e)
    (hkey : hasKey e "id" = true)
    (hval : pvGet e "id" = .int i) :
    (lookup_table_entry_by_id t i
      ((lookup_table_entry_by_short_name t sn s).2)).1 = some e := by
  have hmem : e ∈ (s.get t).1 := by
    have h' : pyDictGet (get_table_dict_by_short_name (s.get t).1) (.str sn) = some e :=
      hfound
    unfold get_table_dict_by_short_name buildDictBy at h'
    rcases buildDict_mem "short_name" (.str sn) (s.get t).1 [] h' with ⟨hm, _⟩ | habs
    · exact hm
    · simp [pyDictGet] at habs
  show pyDictGet (get_table_dict_by_id (((s.get t).2).get t).1) (.int i) = some e
  rw [get_of_findTable? (findTable?_get_snd s t)]
  unfold get_table_dict_by_id buildDictBy
  exact buildDict_get_of_mem "id" i (s.get t).1 [] hid hnodup hmem hkey hval (by simp)

/-- Witness for C8: looking up `euler` by short name and then by the
returned id gives back the same entity. -/
theorem c8_lookup_roundtrip_witness :
    (lookup_table_entry_by_id "mathematicians" 1
      ((lookup_table_entry_by_short_name "mathematicians" "euler"
        (TableEntriesCache.mk [] [("mathematicians",
          [.dict [("id", .int 1), ("short_name", .str "euler")]])])).2)).1
      = some (.dict [("id", .int 1), ("short_name", .str "euler")]) := by
  exact c8_lookup_roundtrip
    (TableEntriesCache.mk [] [("mathematicians",
      [.dict [("id", .int 1), ("short_name", .str "euler")]])])
    "mathematicians" "euler" (.dict [("id", .int 1), ("short_name", .str "euler")]) 1
    (by decide) (by decide) (by decide) (by decide) (by decide) (by decide) (by decide)

/-! # Claim C6 -/

/-- Claim C6 as stated is false on the code: the edge target is always
built as `#mathematicians/{id}` from whatever entry the author reference
resolves to, so an author reference resolving into another table emits a
dangling edge.  Here the equation's author is `#equations/1` — itself —
and `generate` emits an edge to `#mathematicians/1` although the only
node in the graph is `#equations/1`. -/
theorem c6_dangling_edge_counterexample :
    ((generate (TableEntriesCache.mk [] [("mathematicians", []), ("equations",
      [.dict [("id", .int 1), ("short_name", .str "self"),
              ("author", .str "#equations/1")]])])).map
      (fun p => (p.1.map (fun n => n.id), p.2.1.map (fun ed => ed.target))))
      = .ok (["#equations/1"], ["#mathematicians/1"])
    ∧ ¬ ("#mathematicians/1" ∈ (["#equations/1"] : List String)) := by
  constructor
  · rfl
  · decide

theorem get_preserves_findTable? (s : TableEntriesCache) (t t' : String) {l : Table}
    (h : s.findTable? t = some l) : (s.get t').2.findTable? t = some l := by
  unfold TableEntriesCache.get
  cases h2 : s.findTable? t' with
  | some l2 => simpa using h
  | none =>
      simp only
      unfold TableEntriesCache.findTable? at h ⊢
      rw [List.find?_append]
      cases hf : s.cache.find? (fun q => q.1 == t) with
      | some q =>
          rw [hf] at h
          simpa using h
      | none => rw [hf] at h; simp at h

theorem findEntry_mem {tbl idPart : String} :
    ∀ {entries : Table} {tb : String} {e : Entry},
      TableEntriesCache.findEntry tbl idPart entries = .ok (some (tb, e)) →
      tb = tbl ∧ e ∈ entries := by
  intro entries
  induction entries with
  | nil => intro tb e h; simp [TableEntriesCache.findEntry, pure, Except.pure] at h
  | cons e0 es ih =>
      intro tb e h
      unfold TableEntriesCache.findEntry at h
      cases hm : TableEntriesCache.refMatch e0 idPart with
      | error msg => rw [hm] at h; simp [Bind.bind, Except.bind] at h
      | ok b =>
          rw [hm] at h
          cases b with
          | true =>
              simp [Bind.bind, Except.bind, pure, Except.pure] at h
              exact ⟨h.1.symm, List.mem_cons.mpr (Or.inl h.2.symm)⟩
          | false =>
              simp only [Bind.bind, Except.bind, Bool.false_eq_true, if_false] at h
              obtain ⟨htb, hmem⟩ := ih h
              exact ⟨htb, List.mem_cons.mpr (Or.inr hmem)⟩

theorem lookup_preserves_findTable? {s : TableEntriesCache} {r : String} {t : String}
    {l : Table} {res : Option (String × Entry)} {s₂ : TableEntriesCache}
    (h : s.findTable? t = some l) (hl : s.lookup r = .ok (res, s₂)) :
    s₂.findTable? t = some l := by
  unfold TableEntriesCache.lookup at hl
  by_cases hs : pyStartsWith r "#" = true
  · rw [if_neg (by simp [hs])] at hl
    simp only [] at hl
    cases hsp : pySplitOnce (pyDrop1 r) '/' with
    | some p =>
        rw [hsp] at hl
        cases hfe : TableEntriesCache.findEntry p.1 p.2 ((s.get p.1).1) with
        | error msg => simp [hfe, Bind.bind, Except.bind] at hl
        | ok o =>
            simp [hfe, Bind.bind, Except.bind, pure, Except.pure] at hl
            rw [← hl.2]
            exact get_preserves_findTable? s t p.1 h
    | none =>
        rw [hsp] at hl
        cases hfb : TableEntriesCache.findBare (pyDrop1 r) s.cache with
        | error msg => simp [hfb, Bind.bind, Except.bind] at hl
        | ok o =>
            simp [hfb, Bind.bind, Except.bind, pure, Except.pure] at hl
            rw [← hl.2]
            exact h
  · rw [if_pos (by simp [hs])] at hl
    simp [pure, Except.pure] at hl
    rw [← hl.2]
    exact h

theorem pyStartsWith_mono {r : String} (h : pyStartsWith r "#mathematicians/" = true) :
    pyStartsWith r "#" = true := by
  unfold pyStartsWith at h ⊢
  rw [List.isPrefixOf_iff_prefix] at h ⊢
  exact List.IsPrefix.trans (by decide) h

theorem pyGet_str_of_ne_default {v : PVal} {k : String} {d : PVal} {r : String}
    (h : pyGet v k d = .ok (.str r)) (hd : d ≠ .str r) : pvGet v k = .str r := by
  cases v with
  | dict fields =>
      simp only [pyGet] at h
      simp only [pvGet]
      cases hf : fields.find? (fun p => p.1 == k) with
      | none =>
          rw [hf] at h
          simp at h
          exact absurd h hd
      | some p =>
          rw [hf] at h
          simp at h
          simp [h]
  | none => simp [pyGet] at h
  | bool b => simp [pyGet] at h
  | int n => simp [pyGet] at h
  | str t => simp [pyGet] at h
  | list xs => simp [pyGet] at h

theorem lookup_ok_some_startsWith {s : TableEntriesCache} {r : String}
    {res : String × Entry} {s₂ : TableEntriesCache}
    (hl : s.lookup r = .ok (some res, s₂)) : pyStartsWith r "#" = true := by
  by_contra hs
  unfold TableEntriesCache.lookup at hl
  rw [if_pos (by simpa using hs)] at hl
  simp [pure, Except.pure] at hl

theorem lookup_mem_mathematicians {s : TableEntriesCache} {r : String}
    {tb : String} {e : Entry} {s₂ : TableEntriesCache} {ms : Table}
    (hm : s.findTable? "mathematicians" = some ms)
    (hpre : pyStartsWith r "#mathematicians/" = true)
    (hl : s.lookup r = .ok (some (tb, e), s₂)) :
    e ∈ ms := by
  have hs : pyStartsWith r "#" = true := pyStartsWith_mono hpre
  obtain ⟨suffix, hsuf⟩ : ∃ t, "#mathematicians/".data ++ t = r.data := by
    unfold pyStartsWith at hpre
    rw [List.isPrefixOf_iff_prefix] at hpre
    exact hpre
  have hdrop : (pyDrop1 r).data = "mathematicians".data ++ '/' :: suffix := by
    show r.data.drop 1 = _
    rw [← hsuf]
    rfl
  have hsplit : pySplitOnce (pyDrop1 r) '/' = some ("mathematicians", String.mk suffix) := by
    unfold pySplitOnce
    rw [hdrop, splitOnceChar_append '/' _ _ (by decide)]
    rfl
  unfold TableEntriesCache.lookup at hl
  rw [if_neg (by simp [hs])] at hl
  simp only [] at hl
  rw [hsplit] at hl
  simp only [] at hl
  rw [get_of_findTable? hm] at hl
  cases hfe : TableEntriesCache.findEntry "mathematicians" (String.mk suffix) ms with
  | error msg => simp [hfe, Bind.bind, Except.bind] at hl
  | ok o =>
      simp [hfe, Bind.bind, Except.bind, pure, Except.pure] at hl
      exact (findEntry_mem (by rw [hfe, hl.1])).2

theorem mathNodes_mem : ∀ {ms : Table} {mns : List GNode} {e : Entry},
    mathNodes ms = .ok mns → e ∈ ms → ∃ n ∈ mns, mathNode e = .ok n := by
  intro ms
  induction ms with
  | nil => intro mns e _ hmem; exact absurd hmem (List.not_mem_nil e)
  | cons m ms ih =>
      intro mns e hok hmem
      unfold mathNodes at hok
      cases hmn : mathNode m with
      | error msg => rw [hmn] at hok; simp [Bind.bind, Except.bind] at hok
      | ok n0 =>
          rw [hmn] at hok
          cases hrest : mathNodes ms with
          | error msg => rw [hrest] at hok; simp [Bind.bind, Except.bind] at hok
          | ok ns0 =>
              rw [hrest] at hok
              simp [Bind.bind, Except.bind, pure, Except.pure] at hok
              rcases List.mem_cons.mp hmem with rfl | hmem'
              · exact ⟨n0, by rw [← hok]; exact List.mem_cons_self _ _, hmn⟩
              · obtain ⟨n, hn, hmm⟩ := ih hrest hmem'
                exact ⟨n, by rw [← hok]; exact List.mem_cons_of_mem _ hn, hmm⟩

theorem mathNode_id {e : Entry} {n : GNode} {v : PVal}
    (hok : mathNode e = .ok n) (hsub : pySubscript e "id" = .ok v) :
    n.id = "#mathematicians/" ++ pvStr v := by
  unfold mathNode at hok
  rw [hsub] at hok
  simp only [Bind.bind, Except.bind] at hok
  cases hg : pyGet e "name" v with
  | error msg => rw [hg] at hok; simp at hok
  | ok lbl =>
      rw [hg] at hok
      simp only [pure, Except.pure] at hok
      injection hok with hok2
      rw [← hok2]

/-- The equations loop emits edges whose source is the equation node just
emitted, and — when every sigil-bearing author reference names the
mathematicians table — whose target is one of the mathematician nodes. -/
theorem genEqs_edges {ms : Table} {mns : List GNode} (hmns : mathNodes ms = .ok mns) :
    ∀ (eqs : List Entry) (s : TableEntriesCache) (ns : List GNode) (es : List GEdge)
      (s' : TableEntriesCache),
      s.findTable? "mathematicians" = some ms →
      genEqs s eqs = .ok (ns, es, s') →
      (∀ eq ∈ eqs, ∀ r : String, pvGet eq "author" = .str r →
        pyStartsWith r "#" = true → pyStartsWith r "#mathematicians/" = true) →
      ∀ ed ∈ es, ed.source ∈ ns.map (fun n => n.id)
        ∧ ed.target ∈ mns.map (fun n => n.id)
  | [], s, ns, es, s', hm, hgen, hauth => by
      simp only [genEqs] at hgen
      injection hgen with hg
      have hg2 := congrArg (fun p => p.2.1) hg
      simp only at hg2
      intro ed hed
      rw [← hg2] at hed
      exact absurd hed (List.not_mem_nil ed)
  | eq :: rest, s, ns, es, s', hm, hgen, hauth => by
      unfold genEqs at hgen
      simp only [Bind.bind, Except.bind] at hgen
      cases h1 : pyGet eq "equation" (.str "") with
      | error m => rw [h1] at hgen; simp at hgen
      | ok latex =>
      rw [h1] at hgen
      simp only [] at hgen
      cases h2 : pySubscript eq "id" with
      | error m => rw [h2] at hgen; simp at hgen
      | ok i =>
      rw [h2] at hgen
      simp only [] at hgen
      cases h3 : pyGet eq "name" i with
      | error m => rw [h3] at hgen; simp at hgen
      | ok name =>
      rw [h3] at hgen
      simp only [] at hgen
      cases h4 : pyGet eq "author" (.list []) with
      | error m => rw [h4] at hgen; simp at hgen
      | ok author =>
      rw [h4] at hgen
      simp only [] at hgen
      cases author with
      | none => simp at hgen
      | bool b => simp at hgen
      | int n => simp at hgen
      | list xs => simp at hgen
      | dict fs => simp at hgen
      | str r =>
      simp only [Bind.bind, Except.bind] at hgen
      cases h5 : s.lookup r with
      | error m => rw [h5] at hgen; simp at hgen
      | ok lr =>
      rw [h5] at hgen
      simp only [] at hgen
      cases hlr : lr.1 with
      | some p =>
          obtain ⟨tb, ae⟩ := p
          rw [hlr] at hgen
          simp only [Bind.bind, Except.bind] at hgen
          cases h6 : pySubscript ae "id" with
          | error m => rw [h6] at hgen; simp at hgen
          | ok aid =>
          rw [h6] at hgen
          simp only [] at hgen
          cases h7 : genEqs lr.2 rest with
          | error m => rw [h7] at hgen; simp at hgen
          | ok q =>
          rw [h7] at hgen
          simp only [pure, Except.pure] at hgen
          injection hgen with hg
          have h5' : s.lookup r = .ok (some (tb, ae), lr.2) := by
            rw [h5, ← hlr]
          have hpvr : pvGet eq "author" = .str r :=
            pyGet_str_of_ne_default h4 (by simp)
          have hpre := hauth eq (List.mem_cons_self eq rest) r hpvr
            (lookup_ok_some_startsWith h5')
          have hmem_ae : ae ∈ ms := lookup_mem_mathematicians hm hpre h5'
          obtain ⟨n, hn, hnode⟩ := mathNodes_mem hmns hmem_ae
          have hid := mathNode_id hnode h6
          have hm2 : lr.2.findTable? "mathematicians" = some ms :=
            lookup_preserves_findTable? hm h5'
          have ih := genEqs_edges hmns rest lr.2 q.1 q.2.1 q.2.2 hm2
            (by rw [h7]) (fun z hz => hauth z (List.mem_cons_of_mem _ hz))
          have hg1 := congrArg (fun p => p.1) hg
          have hg2 := congrArg (fun p => p.2.1) hg
          simp only at hg1 hg2
          intro ed hed
          rw [← hg2] at hed
          rw [← hg1]
          rcases List.mem_cons.mp hed with rfl | hed'
          · constructor
            · rw [List.map_cons]
              exact List.mem_cons.mpr (Or.inl rfl)
            · exact List.mem_map.mpr ⟨n, hn, by rw [hid]⟩
          · obtain ⟨hsrc, htgt⟩ := ih ed hed'
            constructor
            · rw [List.map_cons]
              exact List.mem_cons.mpr (Or.inr hsrc)
            · exact htgt
      | none =>
          rw [hlr] at hgen
          simp only [Bind.bind, Except.bind] at hgen
          cases h7 : genEqs lr.2 rest with
          | error m => rw [h7] at hgen; simp at hgen
          | ok q =>
          rw [h7] at hgen
          simp only [pure, Except.pure] at hgen
          injection hgen with hg
          have h5' : s.lookup r = .ok (Option.none, lr.2) := by
            rw [h5, ← hlr]
          have hm2 : lr.2.findTable? "mathematicians" = some ms :=
            lookup_preserves_findTable? hm h5'
          have ih := genEqs_edges hmns rest lr.2 q.1 q.2.1 q.2.2 hm2
            (by rw [h7]) (fun z hz => hauth z (List.mem_cons_of_mem _ hz))
          have hg1 := congrArg (fun p => p.1) hg
          have hg2 := congrArg (fun p => p.2.1) hg
          simp only at hg1 hg2
          intro ed hed
          rw [← hg2] at hed
          rw [← hg1]
          obtain ⟨hsrc, htgt⟩ := ih ed hed
          constructor
          · rw [List.map_cons]
            exact List.mem_cons.mpr (Or.inr hsrc)
          · exact htgt

/-- Claim C6 amended: every edge `generate` emits has its source among the
emitted node ids; and provided every author reference that carries the
`#` sigil is table-qualified to the mathematicians table (the
`#mathematicians/...` form), every edge's target is also among the
emitted node ids.  (An author reference resolving outside the
mathematicians table can produce a dangling target — the counterexample —
and an author reference that does not resolve omits the edge, by
construction of the loop.) -/
theorem c6_edges_resolve_amended (s : TableEntriesCache)
    (ns : List GNode) (es : List GEdge) (s' : TableEntriesCache)
    (hgen : generate s = .ok (ns, es, s'))
    (hauth : ∀ eq ∈ (((s.get "mathematicians").2).get "equations").1, ∀ r : String,
      pvGet eq "author" = .str r → pyStartsWith r "#" = true →
      pyStartsWith r "#mathematicians/" = true) :
    ∀ ed ∈ es, ed.source ∈ ns.map (fun n => n.id)
      ∧ ed.target ∈ ns.map (fun n => n.id) := by
  unfold generate at hgen
  simp only [Bind.bind, Except.bind] at hgen
  cases hmn : mathNodes (s.get "mathematicians").1 with
  | error m => rw [hmn] at hgen; simp at hgen
  | ok mns =>
  rw [hmn] at hgen
  simp only [] at hgen
  cases hq : genEqs (((s.get "mathematicians").2).get "equations").2
      (((s.get "mathematicians").2).get "equations").1 with
  | error m => rw [hq] at hgen; simp at hgen
  | ok q =>
  rw [hq] at hgen
  simp only [pure, Except.pure] at hgen
  injection hgen with hg
  have hg1 := congrArg (fun p => p.1) hg
  have hg2 := congrArg (fun p => p.2.1) hg
  simp only at hg1 hg2
  have hm0 : (s.get "mathematicians").2.findTable? "mathematicians"
      = some (s.get "mathematicians").1 :=
    findTable?_get_snd s "mathematicians"
  have hm1 : (((s.get "mathematicians").2).get "equations").2.findTable? "mathematicians"
      = some (s.get "mathematicians").1 :=
    get_preserves_findTable? _ _ _ hm0
  intro ed hed
  rw [← hg2] at hed
  obtain ⟨hsrc, htgt⟩ := genEqs_edges hmn _ _ q.1 q.2.1 q.2.2 hm1 (by rw [hq]) hauth ed hed
  rw [← hg1]
  constructor
  · rw [List.map_append]
    exact List.mem_append.mpr (Or.inr hsrc)
  · rw [List.map_append]
    exact List.mem_append.mpr (Or.inl htgt)

/-- Witness for the amended C6 at the example store whose author reference
is table-qualified: the single emitted edge joins two emitted nodes. -/
theorem c6_edges_resolve_amended_witness :
    ({ source := "#equations/10", target := "#mathematicians/1", ref := "",
       label := "author", style := "dashed", color := "#C0504D",
       arrowhead := "open" } : GEdge).source ∈
      (([{ id := "#mathematicians/1", label := .str "Leonhard Euler",
           ref := "#mathematicians/1", ty := "mathematician", shape := "ellipse",
           color := "#4F81BD", fillcolor := "#D9E1F2" },
         { id := "#equations/10", label := .str "Euler's Identity\n$$",
           ref := "#equations/10", ty := "equation", shape := "box",
           color := "#C0504D", fillcolor := "#F2DCDB" }] : List GNode).map (fun n => n.id))
    ∧ ({ source := "#equations/10", target := "#mathematicians/1", ref := "",
         label := "author", style := "dashed", color := "#C0504D",
         arrowhead := "open" } : GEdge).target ∈
      (([{ id := "#mathematicians/1", label := .str "Leonhard Euler",
           ref := "#mathematicians/1", ty := "mathematician", shape := "ellipse",
           color := "#4F81BD", fillcolor := "#D9E1F2" },
         { id := "#equations/10", label := .str "Euler's Identity\n$$",
           ref := "#equations/10", ty := "equation", shape := "box",
           color := "#C0504D", fillcolor := "#F2DCDB" }] : List GNode).map (fun n => n.id)) := by
  have h := c6_edges_resolve_amended
    (TableEntriesCache.mk []
      [("mathematicians",
        [.dict [("id", .int 1), ("short_name", .str "euler"),
                ("name", .str "Leonhard Euler")]]),
       ("equations",
        [.dict [("id", .int 10), ("short_name", .str "eulers-identity"),
                ("name", .str "Euler's Identity"),
                ("author", .str "#mathematicians/euler")]])])
    [{ id := "#mathematicians/1", label := .str "Leonhard Euler",
       ref := "#mathematicians/1", ty := "mathematician", shape := "ellipse",
       color := "#4F81BD", fillcolor := "#D9E1F2" },
     { id := "#equations/10", label := .str "Euler's Identity\n$$",
       ref := "#equations/10", ty := "equation", shape := "box",
       color := "#C0504D", fillcolor := "#F2DCDB" }]
    [{ source := "#equations/10", target := "#mathematicians/1", ref := "",
       label := "author", style := "dashed", color := "#C0504D",
       arrowhead := "open" }]
    (TableEntriesCache.mk []
      [("mathematicians",
        [.dict [("id", .int 1), ("short_name", .str "euler"),
                ("name", .str "Leonhard Euler")]]),
       ("equations",
        [.dict [("id", .int 10), ("short_name", .str "eulers-identity"),
                ("name", .str "Euler's Identity"),
                ("author", .str "#mathematicians/euler")]])])
    rfl
    (by
      intro eq heq r hr hsw
      have heq2 : eq ∈ [PVal.dict [("id", .int 10), ("short_name", .str "eulers-identity"),
          ("name", .str "Euler's Identity"),
          ("author", .str "#mathematicians/euler")]] := heq
      rw [List.mem_singleton] at heq2
      subst heq2
      have hr2 : (PVal.str "#mathematicians/euler" : PVal) = .str r := hr
      injection hr2 with hr3
      rw [← hr3]
      decide)
  exact h { source := "#equations/10", target := "#mathematicians/1", ref := "",
            label := "author", style := "dashed", color := "#C0504D",
            arrowhead := "open" } (List.mem_singleton.mpr rfl)
